import Mathlib

/-!
Verification development for the OpenClaw → Nexus migration tool
(src/scripts/openclaw_migrate.py).

The program is shallowly embedded: JSON values are an inductive type;
`json.loads` results are modelled by `Option Json` (none = parse failure);
SQLite column values are `Json` scalars; each migration pass is a pure
function from its (possibly absent) source data to the list of file writes
it performs, its returned count, and the exception it raises, if any.
The one impure input of the program, `datetime.utcnow()`, is threaded in as
an explicit string parameter `now`; it is consumed only by the personality
pass, mirroring the source.
-/

/-- A JSON value, as produced by Python's json.loads.  Numbers are modelled
as rationals (JSON numerals are finite decimals; Python float formatting is
not modelled, and no claim depends on it).  Parsed objects carry their
key/value pairs in insertion order; json.loads yields dicts whose keys are
unique, which the model assumes for lookups. -/
inductive Json where
  | null : Json
  | bool (b : Bool) : Json
  | num (q : Rat) : Json
  | str (s : String) : Json
  | arr (elems : List Json) : Json
  | obj (fields : List (String × Json)) : Json

/-- Key lookup in a parsed-object field list: Python dict subscript / dict.get. -/
def jLookup (kvs : List (String × Json)) (k : String) : Option Json :=
  match kvs with
  | [] => none
  | (k', v) :: rest => if k' = k then some v else jLookup rest k

/-- Lookup of a key in a JSON value known to be an object; none otherwise. -/
def jGet (j : Json) (k : String) : Option Json :=
  match j with
  | .obj kvs => jLookup kvs k
  | _ => none

/-- Python truthiness of a parsed JSON value (what `if not x` tests). -/
def truthy : Json → Bool
  | .null => false
  | .bool b => b
  | .num q => if q = 0 then false else true
  | .str s => if s = "" then false else true
  | .arr xs => !xs.isEmpty
  | .obj kvs => !kvs.isEmpty

/-- Substring test: Python's `needle in haystack` on strings. -/
def strContains (hay needle : String) : Bool :=
  hay.data.tails.any (fun t => needle.data.isPrefixOf t)

/-- Does this JSON value equal the Python string `s`?  (Python `==` against a
str: only a str with the same characters compares equal.) -/
def jIsStr (j : Json) (s : String) : Bool :=
  match j with
  | .str t => t = s
  | _ => false

/-- Exceptions the script can raise.  A bare `raise`-free script surfaces them
as default runtime error propagation (spec section 7). -/
inductive PyErr where
  | attributeError
  | typeError
  | jsonDecodeError
deriving DecidableEq

/-- Python's `'needle' in container` on a parsed JSON value: key membership
for dicts, substring for strings, element membership for lists (a str literal
compares equal only to equal strs), and a TypeError for null, bools and
numbers. -/
def pyIn (needle : String) : Json → Except PyErr Bool
  | .obj kvs => .ok (jLookup kvs needle).isSome
  | .str s => .ok (strContains s needle)
  | .arr xs => .ok (xs.any (fun j => jIsStr j needle))
  | _ => .error .typeError

/-- Rendering of a JSON number under Python str()/repr().  Integers render
exactly; Python float repr of non-integers is abstracted as num/den (no claim
exercises it). -/
def ratStr (q : Rat) : String :=
  if q.den = 1 then toString q.num else toString q.num ++ "/" ++ toString q.den

/-- A single-quote character, the quote Python repr uses around strings. -/
def pyQuote : String := String.singleton (Char.ofNat 39)

/-- Python repr() of a parsed JSON value (used by str() on containers).
Escaping inside string reprs and repr's choice of quote character are
abstracted; no claim exercises container or quoted rendering. -/
def pyRepr : Json → String
  | .null => "None"
  | .bool true => "True"
  | .bool false => "False"
  | .num q => ratStr q
  | .str s => pyQuote ++ s ++ pyQuote
  | .arr xs => "[" ++ String.intercalate ", " (xs.attach.map (fun x => pyRepr x.1)) ++ "]"
  | .obj kvs => "\x7b" ++
      String.intercalate ", "
        (kvs.attach.map (fun x => pyQuote ++ x.1.1 ++ pyQuote ++ ": " ++ pyRepr x.1.2)) ++
      "\x7d"
decreasing_by
  · have := List.sizeOf_lt_of_mem x.2
    simp only [Json.arr.sizeOf_spec]
    omega
  · obtain ⟨⟨k, v⟩, hmem⟩ := x
    have h := List.sizeOf_lt_of_mem hmem
    simp only [Prod.mk.sizeOf_spec] at h
    simp only [Json.obj.sizeOf_spec]
    omega

/-- Python str() of a parsed JSON value: identity on strs, repr elsewhere
(str and repr agree on None, bools and numbers). -/
def pyStr : Json → String
  | .str s => s
  | j => pyRepr j

/-- A destination directory under `<config-home>/nexus/memory/`. -/
inductive DestDir where
  | vector
  | events
  | memoryRoot
deriving DecidableEq

/-- One destination file written by the tool: directory, file name, and the
JSON document serialized into it (json.dump with indent 2 is a deterministic
injective serializer, so equality of documents is equality of file bytes). -/
structure FileWrite where
  dir : DestDir
  name : String
  content : Json

/-! ## Chunk migrator (migrate_code_chunks, source lines 50-105) -/

/-- The embedding column of a chunk row, distinguished exactly as the code
does: SQL NULL (Python None, falsy), the empty string (falsy, so json.loads
is never called), or non-empty text together with its json.loads result
(none when parsing raises, which the bare except turns into []).  A non-text
column value (e.g. an integer) makes json.loads raise TypeError and behaves
like `text none`. -/
inductive EmbeddingField where
  | null
  | emptyText
  | text (parsed : Option Json)

/-- One row of the source `chunks` table, in column order.  Column values
are JSON-serializable scalars or structures (blob columns, which json.dump
would reject, are outside the model). -/
structure ChunkRow where
  id : Json
  path : Json
  source : Json
  start_line : Json
  end_line : Json
  hash : Json
  model : Json
  text : Json
  embedding : EmbeddingField
  updated_at : Json

/-- `embedding_list` as computed by lines 73-76:
`json.loads(embedding) if embedding else []` under a bare try/except that
yields [] on any failure. -/
def embeddingListOf : EmbeddingField → Json
  | .null => .arr []
  | .emptyText => .arr []
  | .text none => .arr []
  | .text (some j) => j

/-- Line 78: the row is written unless `not embedding_list`. -/
def chunkEmits (r : ChunkRow) : Bool :=
  truthy (embeddingListOf r.embedding)

/-- Does the embedding field deserialize, as JSON, to a non-empty sequence?
This is the spec's emission condition, stated from the spec's words
("only emitted if the embedding vector deserializes to a non-empty
sequence"); compare with `chunkEmits`, which is the code's condition. -/
def isNonEmptySeqParse : EmbeddingField → Bool
  | .text (some (.arr l)) => !l.isEmpty
  | _ => false

/-- The destination document of lines 81-96, fields in insertion order. -/
def chunkEntry (r : ChunkRow) : Json :=
  .obj [
    ("id", r.id),
    ("content", r.text),
    ("metadata", .obj [
      ("source_file", r.path),
      ("start_line", r.start_line),
      ("end_line", r.end_line),
      ("hash", r.hash),
      ("model", r.model),
      ("source", r.source),
      ("migrated_from", .str "openclaw"),
      ("original_timestamp", r.updated_at)]),
    ("embedding", embeddingListOf r.embedding),
    ("timestamp", r.updated_at)]

/-- Destination file name of line 98: f-string formatting applies str() to
the id column. -/
def chunkFileName (r : ChunkRow) : String :=
  pyStr r.id ++ ".json"

/-- The write performed for an emitted row (lines 98-100). -/
def chunkWrite (r : ChunkRow) : FileWrite :=
  ⟨.vector, chunkFileName r, chunkEntry r⟩

/-- Result of the chunk pass: the returned count, the files written, and
whether the missing-database warning was printed. -/
structure ChunkResult where
  count : Nat
  writes : List FileWrite
  warned : Bool

/-- migrate_code_chunks.  The input is none when the source database is
absent, otherwise the list of chunk rows in the order the query returns them
(ORDER BY path, start_line).  The loop of lines 69-102 writes one file per
row whose embedding_list is truthy and counts them; it can raise nothing. -/
def migrate_code_chunks : Option (List ChunkRow) → ChunkResult
  | none => ⟨0, [], true⟩
  | some rows =>
      ⟨(rows.filter chunkEmits).length,
       (rows.filter chunkEmits).map chunkWrite,
       false⟩

/-! ## Conversation migrator (migrate_conversations, source lines 107-164) -/

/-- A session log file: its file name and, per line, the result of
json.loads on that line (none = the line is not valid JSON, lines 125-128). -/
structure SessionFile where
  name : String
  lines : List (Option Json)

/-- pathlib PurePath.stem of a bare file name: the name minus its suffix,
where the suffix starts at the last dot unless that dot is the first or the
last character. -/
def stem (name : String) : String :=
  match (name.data.enum.filter (fun p => p.2 = Char.ofNat 46)).map (fun p => p.1) |>.getLast? with
  | none => name
  | some i => if 0 < i ∧ i < name.data.length - 1 then ⟨name.data.take i⟩ else name

/-- Does `s` end with `tail`?  (fnmatch of the glob pattern `*.jsonl`
against a file name holds exactly when the name ends with ".jsonl".) -/
def strEndsWith (s tail : String) : Bool :=
  tail.data.isSuffixOf s.data

/-- Line 113-116: keep files matching glob `*.jsonl` (name ends in ".jsonl")
whose name does not contain ".deleted.". -/
def activeSessions (files : List SessionFile) : List SessionFile :=
  files.filter (fun f => strEndsWith f.name ".jsonl" && !strContains f.name ".deleted.")

/-- The pieces extracted from one qualifying log line (lines 148-156 use
them to build the event). -/
structure ConvParts where
  role : Json
  text : String
  timestamp : Json

/-- Lines 139-146: extract text from the inner message's content.  A list
content joins with a space the "text" field (default "") of every dict part
whose "type" is "text"; str.join raises TypeError when a collected field is
not a string.  Non-list content is stringified with str(). -/
def textPartField : Json → Option Json
  | .obj kvs =>
      match jLookup kvs "type" with
      | some (.str t) =>
          if t = "text" then some ((jLookup kvs "text").getD (.str "")) else none
      | _ => none
  | _ => none

/-- The strings of a list of JSON values, or none if one is not a string
(`str.join`'s TypeError condition). -/
def allStrings : List Json → Option (List String)
  | [] => some []
  | .str s :: rest => (allStrings rest).map (fun l => s :: l)
  | _ => none

/-- The content-to-text extraction of lines 140-146. -/
def extractContentText (content : Json) : Except PyErr String :=
  match content with
  | .arr parts =>
      match allStrings (parts.filterMap textPartField) with
      | some strs => .ok (String.intercalate " " strs)
      | none => .error .typeError
  | c => .ok (pyStr c)

/-- Lines 135-151 applied to the inner message value: the role/content
key-presence filter (Python `in`, which can raise TypeError on non-container
inner values), then dict attribute access (AttributeError on a non-dict
inner value that passed the filter), then text extraction. -/
def processInner (kvs : List (String × Json)) (inner : Json) :
    Except PyErr (Option ConvParts) :=
  match pyIn "role" inner with
  | .error e => .error e
  | .ok false => .ok none
  | .ok true =>
    match pyIn "content" inner with
    | .error e => .error e
    | .ok false => .ok none
    | .ok true =>
      match inner with
      | .obj ikvs =>
        match extractContentText ((jLookup ikvs "content").getD (.arr [])) with
        | .error e => .error e
        | .ok text =>
            .ok (some ⟨(jLookup ikvs "role").getD .null, text,
                       (jLookup kvs "timestamp").getD (.str "unknown")⟩)
      | _ => .error .attributeError

/-- Lines 125-156 applied to one log line: skip lines that are not valid
JSON; `msg.get` raises AttributeError on a non-dict line value; skip unless
type is "message" and the "message" key is present; then process the inner
value. -/
def processLine (line : Option Json) : Except PyErr (Option ConvParts) :=
  match line with
  | none => .ok none
  | some (.obj kvs) =>
      match jLookup kvs "type" with
      | some (.str t) =>
          if t = "message" then
            match jLookup kvs "message" with
            | some inner => processInner kvs inner
            | none => .ok none
          else .ok none
      | _ => .ok none
  | some _ => .error .attributeError

/-- The destination event document of lines 148-156, fields in insertion
order. -/
def eventJson (sid : String) (idx : Nat) (p : ConvParts) : Json :=
  .obj [
    ("type", .str "conversation"),
    ("role", p.role),
    ("content", .str p.text),
    ("timestamp", p.timestamp),
    ("session", .str sid),
    ("message_index", .num idx),
    ("migrated_from", .str "openclaw")]

/-- Destination file name of line 158. -/
def eventName (sid : String) (idx : Nat) : String :=
  "openclaw_" ++ sid ++ "_" ++ toString idx ++ ".json"

/-- The enumerate loop of lines 124-162 over the remaining lines, the first
carrying index `idx`: emitted (index, parts) pairs in order, and the first
uncaught exception, which aborts the enumeration. -/
def processLines : List (Option Json) → Nat → List (Nat × ConvParts) × Option PyErr
  | [], _ => ([], none)
  | l :: ls, idx =>
      match processLine l with
      | .error e => ([], some e)
      | .ok none => processLines ls (idx + 1)
      | .ok (some p) =>
          let rest := processLines ls (idx + 1)
          ((idx, p) :: rest.1, rest.2)

/-- The file writes one session file produces (the body of the loop at
lines 120-162): one event file per emitted message, named by the file's
stem and the line index. -/
def fileWrites (f : SessionFile) : List FileWrite :=
  ((processLines f.lines 0).1).map
    (fun ip => ⟨.events, eventName (stem f.name) ip.1, eventJson (stem f.name) ip.1 ip.2⟩)

/-- Result of the conversation pass: the returned message count (meaningful
only when err is none, since an exception propagates before the return),
the files written before any exception, the missing-directory warning flag,
and the propagated exception, if any. -/
structure ConvResult where
  count : Nat
  writes : List FileWrite
  warned : Bool
  err : Option PyErr

/-- The loop over session files: accumulate counts and writes until a file
raises. -/
def convGo : List SessionFile → Nat × List FileWrite × Option PyErr
  | [] => (0, [], none)
  | f :: fs =>
      let r := processLines f.lines 0
      match r.2 with
      | some e => (0, fileWrites f, some e)
      | none =>
          let rest := convGo fs
          (r.1.length + rest.1, fileWrites f ++ rest.2.1, rest.2.2)

/-- migrate_conversations.  The input is none when the sessions directory is
absent, otherwise the directory listing in enumeration order. -/
def migrate_conversations : Option (List SessionFile) → ConvResult
  | none => ⟨0, [], true, none⟩
  | some files =>
      let r := convGo (activeSessions files)
      ⟨r.1, r.2.1, false, r.2.2⟩

/-! ## Personality extractor (extract_personality, source lines 166-184) -/

/-- The configuration file source: absent, present but not valid JSON, or
present with its parsed value. -/
inductive ConfigSource where
  | absent
  | malformed
  | parsed (j : Json)

/-- The destination document of lines 175-180; `now` is the
datetime.utcnow().isoformat() string computed at line 177. -/
def personalityJson (config : Json) (now : String) : Json :=
  .obj [
    ("source", .str "openclaw"),
    ("migrated_at", .str (now ++ "Z")),
    ("config", config),
    ("notes", .str "Migrated from OpenClaw. Review and integrate into Nexus system prompts.")]

/-- Result of the personality pass: the file written (if any), the
missing-config warning flag, and the propagated exception, if any. -/
structure PersonalityResult where
  write : Option FileWrite
  warned : Bool
  err : Option PyErr

/-- extract_personality: warn and return when the config file is absent;
propagate json.load's decode error unhandled when it is malformed;
otherwise write the wrapped document to the fixed file name. -/
def extract_personality (cfg : ConfigSource) (now : String) : PersonalityResult :=
  match cfg with
  | .absent => ⟨none, true, none⟩
  | .malformed => ⟨none, false, some .jsonDecodeError⟩
  | .parsed j => ⟨some ⟨.memoryRoot, "openclaw_personality.json", personalityJson j now⟩, false, none⟩

/-! ## main (source lines 10-48, 186-187) -/

/-- Outcome of one run of the script: the three pass results (the
personality pass is none when an earlier exception prevented it from
running) and the first uncaught exception.  The process exit status is zero
exactly when err is none. -/
structure RunOutcome where
  chunks : ChunkResult
  conv : ConvResult
  personality : Option PersonalityResult
  err : Option PyErr

/-- Exit status of the process: true = exit code zero. -/
def RunOutcome.exitOk (o : RunOutcome) : Bool :=
  o.err.isNone

/-- The names of the files the run wrote, with their directories. -/
def RunOutcome.files (o : RunOutcome) : List (DestDir × String) :=
  o.chunks.writes.map (fun w => (w.dir, w.name)) ++
  o.conv.writes.map (fun w => (w.dir, w.name)) ++
  (match o.personality with
   | some p => (p.write.map (fun w => (w.dir, w.name))).toList
   | none => [])

/-- The main function: run the three passes in order; an exception in an
earlier pass prevents the later passes from running and makes the process
exit non-zero.  The chunk pass raises nothing in the model; the
conversation pass can raise; the personality pass can raise. -/
def mainRun (db : Option (List ChunkRow)) (sessions : Option (List SessionFile))
    (cfg : ConfigSource) (now : String) : RunOutcome :=
  let c := migrate_code_chunks db
  let m := migrate_conversations sessions
  match m.err with
  | some e => ⟨c, m, none, some e⟩
  | none =>
      let p := extract_personality cfg now
      ⟨c, m, some p, p.err⟩

/-! ## Shared helper lemmas and sample data -/

/-- An embedding that deserializes to a non-empty JSON array is truthy. -/
theorem nonEmptySeq_emits (e : EmbeddingField) (h : isNonEmptySeqParse e = true) :
    truthy (embeddingListOf e) = true := by
  cases e with
  | null => exact absurd h (by simp [isNonEmptySeqParse])
  | emptyText => exact absurd h (by simp [isNonEmptySeqParse])
  | text parsed =>
    cases parsed with
    | none => exact absurd h (by simp [isNonEmptySeqParse])
    | some j => cases j <;> simp_all [isNonEmptySeqParse, embeddingListOf, truthy]

/-- Filtering a list by agreement with `f` at a member yields exactly that
member when `f` is injective on the list. -/
theorem filter_eq_singleton_of_nodup_map {α β : Type} [DecidableEq β] (f : α → β)
    (l : List α) (a : α) (ha : a ∈ l) (hnd : (l.map f).Nodup) :
    l.filter (fun x => decide (f x = f a)) = [a] := by
  induction l with
  | nil => cases ha
  | cons x xs ih =>
    rw [List.map_cons, List.nodup_cons] at hnd
    obtain ⟨hx, hxs⟩ := hnd
    rcases List.mem_cons.mp ha with h | h
    · rw [← h] at hx ⊢
      rw [List.filter_cons_of_pos (by simp)]
      have hnil : xs.filter (fun y => decide (f y = f a)) = [] :=
        List.filter_eq_nil_iff.mpr (fun b hb => by
          simp only [decide_eq_true_eq]
          intro he
          exact hx (he ▸ List.mem_map_of_mem f hb))
      rw [hnil]
    · have hne : f x ≠ f a := fun he => hx (he ▸ List.mem_map_of_mem f h)
      rw [List.filter_cons_of_neg (by simp [hne])]
      exact ih h hxs

/-- The chunk component of a run is the chunk pass on the database alone. -/
theorem mainRun_chunks (db : Option (List ChunkRow)) (ss : Option (List SessionFile))
    (cfg : ConfigSource) (now : String) :
    (mainRun db ss cfg now).chunks = migrate_code_chunks db := by
  simp only [mainRun]
  rcases h : (migrate_conversations ss).err with _ | e <;> rfl

/-- The conversation component of a run is the conversation pass on the
sessions directory alone. -/
theorem mainRun_conv (db : Option (List ChunkRow)) (ss : Option (List SessionFile))
    (cfg : ConfigSource) (now : String) :
    (mainRun db ss cfg now).conv = migrate_conversations ss := by
  simp only [mainRun]
  rcases h : (migrate_conversations ss).err with _ | e <;> rfl

/-- A chunk row whose embedding column parses as JSON to the number 5:
json.loads succeeds, 5 is truthy, so the migrator writes a file although 5
is not a sequence. -/
def numEmbeddingRow : ChunkRow :=
  ⟨.str "c1", .str "a.py", .str "local", .num 1, .num 2, .str "h", .str "m",
   .str "code", .text (some (.num 5)), .str "t0"⟩

/-- A chunk row whose embedding parses to a non-empty JSON array. -/
def listEmbeddingRow : ChunkRow :=
  ⟨.str "c2", .str "b.py", .str "local", .num 3, .num 9, .str "h2", .str "m",
   .str "code2", .text (some (.arr [.num 1, .num 2])), .str "t1"⟩

/-! ## Claims about the chunk migrator -/

/-- C1 counterexample: the claim's "if and only if" fails on the code.  A
row whose embedding field deserializes (as JSON) to the number 5 — not a
sequence at all — nevertheless gets a destination file written, because the
code tests Python truthiness of the parse result, not sequence-ness. -/
theorem chunk_emit_iff_refuted :
    isNonEmptySeqParse numEmbeddingRow.embedding = false ∧
    (migrate_code_chunks (some [numEmbeddingRow])).writes = [chunkWrite numEmbeddingRow] :=
  ⟨rfl, rfl⟩

/-- C1 amended: the chunk migrator writes a destination file for a row if
and only if the row's embedding field deserializes (as JSON) to a
Python-truthy value; every embedding deserializing to a non-empty sequence
is written, and rows whose embedding is null, absent, unparseable, or
deserializes to an empty sequence produce no destination file and are
skipped without aborting the pass (the pass is total and writes exactly the
truthy-embedding rows, in order). -/
theorem chunk_emit_characterization (rows : List ChunkRow) (r : ChunkRow) :
    (migrate_code_chunks (some rows)).writes = (rows.filter chunkEmits).map chunkWrite ∧
    (migrate_code_chunks (some rows)).count = (rows.filter chunkEmits).length ∧
    chunkEmits r = truthy (embeddingListOf r.embedding) ∧
    (isNonEmptySeqParse r.embedding = true → chunkEmits r = true) ∧
    ((r.embedding = .null ∨ r.embedding = .emptyText ∨ r.embedding = .text none ∨
        r.embedding = .text (some (.arr []))) → chunkEmits r = false) := by
  refine ⟨rfl, rfl, rfl, nonEmptySeq_emits r.embedding, ?_⟩
  rintro (h | h | h | h) <;> simp [chunkEmits, h, embeddingListOf, truthy]

/-- C1 witness: a concrete non-empty-array embedding is emitted. -/
theorem chunk_emit_characterization_witness :
    isNonEmptySeqParse listEmbeddingRow.embedding = true ∧
    chunkEmits listEmbeddingRow = true :=
  ⟨rfl, (chunk_emit_characterization [listEmbeddingRow] listEmbeddingRow).2.2.2.1 rfl⟩

/-- C3: for a chunk row whose embedding deserializes to a non-empty list,
the pass writes exactly one destination file carrying that row's name
(id-derived, assuming ids render to pairwise-distinct file names, as for a
primary-key id column), and its metadata fields equal the source row's
columns verbatim. -/
theorem chunk_one_file_per_row (rows : List ChunkRow) (r : ChunkRow)
    (hnd : (rows.map chunkFileName).Nodup) (hr : r ∈ rows)
    (he : isNonEmptySeqParse r.embedding = true) :
    (migrate_code_chunks (some rows)).writes.filter
        (fun w => decide (w.name = chunkFileName r)) = [chunkWrite r] ∧
    (chunkWrite r).dir = .vector ∧
    (chunkWrite r).name = pyStr r.id ++ ".json" ∧
    jGet (chunkEntry r) "metadata" = some (.obj [
      ("source_file", r.path), ("start_line", r.start_line), ("end_line", r.end_line),
      ("hash", r.hash), ("model", r.model), ("source", r.source),
      ("migrated_from", .str "openclaw"), ("original_timestamp", r.updated_at)]) ∧
    jGet (chunkEntry r) "id" = some r.id ∧
    jGet (chunkEntry r) "content" = some r.text := by
  refine ⟨?_, rfl, rfl, rfl, rfl, rfl⟩
  show ((rows.filter chunkEmits).map chunkWrite).filter _ = [chunkWrite r]
  rw [List.filter_map]
  have hcomp : ((fun w => decide (w.name = chunkFileName r)) ∘ chunkWrite)
      = fun x => decide (chunkFileName x = chunkFileName r) := rfl
  rw [hcomp]
  have hmem : r ∈ rows.filter chunkEmits :=
    List.mem_filter.mpr ⟨hr, nonEmptySeq_emits _ he⟩
  have hnd' : ((rows.filter chunkEmits).map chunkFileName).Nodup :=
    List.Nodup.sublist (List.Sublist.map chunkFileName (List.filter_sublist rows)) hnd
  rw [filter_eq_singleton_of_nodup_map chunkFileName _ r hmem hnd']
  rfl

/-- C3 witness at a concrete one-row table. -/
theorem chunk_one_file_per_row_witness :
    ([listEmbeddingRow].map chunkFileName).Nodup ∧
    listEmbeddingRow ∈ [listEmbeddingRow] ∧
    isNonEmptySeqParse listEmbeddingRow.embedding = true ∧
    (migrate_code_chunks (some [listEmbeddingRow])).writes.filter
        (fun w => decide (w.name = chunkFileName listEmbeddingRow))
      = [chunkWrite listEmbeddingRow] :=
  ⟨by decide, List.mem_singleton_self _, rfl,
   (chunk_one_file_per_row [listEmbeddingRow] listEmbeddingRow (by decide)
      (List.mem_singleton_self _) rfl).1⟩

/-! ## Claims about missing sources and file selection -/

/-- C6: a missing source database, sessions directory, or config file makes
the corresponding pass warn and return a zero count (no write for the
personality pass) without raising, and a run with all three absent exits
with status zero. -/
theorem missing_sources_graceful :
    (∀ ss cfg now, (mainRun none ss cfg now).chunks = ⟨0, [], true⟩) ∧
    (∀ db cfg now, (mainRun db none cfg now).conv = ⟨0, [], true, none⟩) ∧
    (∀ now, extract_personality .absent now = ⟨none, true, none⟩) ∧
    (∀ now, mainRun none none .absent now =
        ⟨⟨0, [], true⟩, ⟨0, [], true, none⟩, some ⟨none, true, none⟩, none⟩) ∧
    (∀ now, (mainRun none none .absent now).exitOk = true) := by
  refine ⟨?_, ?_, fun _ => rfl, fun _ => rfl, fun _ => rfl⟩
  · intro ss cfg now
    rw [mainRun_chunks]
    rfl
  · intro db cfg now
    rw [mainRun_conv]
    rfl

/-- The session-file filter is idempotent. -/
theorem activeSessions_idem (files : List SessionFile) :
    activeSessions (activeSessions files) = activeSessions files := by
  unfold activeSessions
  rw [List.filter_filter]
  simp

/-- C7: the conversation migrator processes exactly the files whose name
ends in ".jsonl" and does not contain ".deleted."; the pass's outcome is a
function of those files alone, so excluded files are never read. -/
theorem session_file_selection (files : List SessionFile) (f : SessionFile) :
    (f ∈ activeSessions files ↔
      f ∈ files ∧ strEndsWith f.name ".jsonl" = true ∧
        strContains f.name ".deleted." = false) ∧
    migrate_conversations (some files) = migrate_conversations (some (activeSessions files)) := by
  constructor
  · simp [activeSessions, List.mem_filter, Bool.and_eq_true, Bool.not_eq_true', and_assoc]
  · show migrate_conversations (some files) = _
    simp only [migrate_conversations]
    rw [activeSessions_idem]

/-! ## Claims about the conversation migrator -/

/-- Inversion: a successful processInner forces the inner value to be an
object with role and content keys, and fixes the extracted parts; the
event timestamp comes from the top-level object `kvs`. -/
theorem processInner_ok (kvs : List (String × Json)) (inner : Json) (p : ConvParts)
    (h : processInner kvs inner = .ok (some p)) :
    ∃ ikvs text, inner = .obj ikvs ∧
      (jLookup ikvs "role").isSome = true ∧
      (jLookup ikvs "content").isSome = true ∧
      extractContentText ((jLookup ikvs "content").getD (.arr [])) = .ok text ∧
      p = ⟨(jLookup ikvs "role").getD .null, text,
           (jLookup kvs "timestamp").getD (.str "unknown")⟩ := by
  cases inner with
  | null => simp [processInner, pyIn] at h
  | bool b => simp [processInner, pyIn] at h
  | num q => simp [processInner, pyIn] at h
  | str s =>
    simp only [processInner, pyIn] at h
    cases hr : strContains s "role" with
    | false => rw [hr] at h; simp at h
    | true =>
      rw [hr] at h
      cases hc : strContains s "content" with
      | false => rw [hc] at h; simp at h
      | true => rw [hc] at h; simp at h
  | arr xs =>
    simp only [processInner, pyIn] at h
    cases hr : xs.any (fun j => jIsStr j "role") with
    | false => rw [hr] at h; simp at h
    | true =>
      rw [hr] at h
      cases hc : xs.any (fun j => jIsStr j "content") with
      | false => rw [hc] at h; simp at h
      | true => rw [hc] at h; simp at h
  | obj ikvs =>
    simp only [processInner, pyIn] at h
    cases hr : (jLookup ikvs "role").isSome with
    | false => rw [hr] at h; simp at h
    | true =>
      rw [hr] at h
      cases hc : (jLookup ikvs "content").isSome with
      | false => rw [hc] at h; simp at h
      | true =>
        rw [hc] at h
        cases het : extractContentText ((jLookup ikvs "content").getD (.arr [])) with
        | error e => rw [het] at h; simp at h
        | ok text =>
          rw [het] at h
          simp only [Except.ok.injEq, Option.some.injEq] at h
          exact ⟨ikvs, text, rfl, hr, hc, het, h.symm⟩

/-- Inversion: a successful processLine forces the line to be a JSON object
with type "message" and a "message" key whose value processInner accepts. -/
theorem processLine_ok (l : Option Json) (p : ConvParts)
    (h : processLine l = .ok (some p)) :
    ∃ kvs inner, l = some (.obj kvs) ∧
      jLookup kvs "type" = some (.str "message") ∧
      jLookup kvs "message" = some inner ∧
      processInner kvs inner = .ok (some p) := by
  cases l with
  | none => simp [processLine] at h
  | some j =>
    cases j with
    | null => simp [processLine] at h
    | bool b => simp [processLine] at h
    | num q => simp [processLine] at h
    | str s => simp [processLine] at h
    | arr xs => simp [processLine] at h
    | obj kvs =>
      simp only [processLine] at h
      cases hty : jLookup kvs "type" with
      | none => rw [hty] at h; simp at h
      | some tv =>
        rw [hty] at h
        cases tv with
        | str t =>
          have h' : (if t = "message" then
              (match jLookup kvs "message" with
               | some inner => processInner kvs inner
               | none => Except.ok none)
            else Except.ok none) = Except.ok (some p) := h
          by_cases ht : t = "message"
          · rw [if_pos ht] at h'
            cases hm : jLookup kvs "message" with
            | none => rw [hm] at h'; simp at h'
            | some inner =>
              rw [hm] at h'
              exact ⟨kvs, inner, rfl, by rw [hty, ht], hm, h'⟩
          · rw [if_neg ht] at h'; simp at h'
        | null => simp at h
        | bool b => simp at h
        | num q => simp at h
        | arr xs => simp at h
        | obj o => simp at h

/-- A log line whose inner "message" value is a string containing both
substrings "role" and "content": valid JSON, type "message", and it passes
the key-presence filter because Python's `in` on a string tests substrings. -/
def poisonLine : Json :=
  .obj [("type", .str "message"), ("message", .str "role and content")]

/-- A well-formed message line: dict inner value with role and content. -/
def goodLine : Json :=
  .obj [("type", .str "message"),
        ("message", .obj [("role", .str "user"), ("content", .str "hi")])]

/-- A session whose first line is the poison line and whose second line is a
well-formed message. -/
def poisonSession : SessionFile := ⟨"s1.jsonl", [some poisonLine, some goodLine]⟩

/-- The same session with only the well-formed message. -/
def goodSession : SessionFile := ⟨"s1.jsonl", [some goodLine]⟩

/-- C9: the substring-membership filter passes on a string inner value
containing "role" and "content", and the subsequent attribute access raises
an uncaught AttributeError that aborts the pass: the session containing the
poison line (followed by a perfectly good message, which alone would
migrate) produces no events and propagates the exception. -/
theorem substring_filter_crash :
    pyIn "role" (.str "role and content") = .ok true ∧
    pyIn "content" (.str "role and content") = .ok true ∧
    processLine (some poisonLine) = .error .attributeError ∧
    migrate_conversations (some [poisonSession]) = ⟨0, [], false, some .attributeError⟩ ∧
    migrate_conversations (some [goodSession]) =
      ⟨1, [⟨.events, "openclaw_s1_0.json",
            eventJson "s1" 0 ⟨.str "user", "hi", .str "unknown"⟩⟩],
       false, none⟩ :=
  ⟨rfl, rfl, rfl, rfl, rfl⟩

/-- C10: every emitted event's timestamp is read from the top-level log-line
object; when the top-level object has no "timestamp" key the literal
"unknown" is written, whatever the inner message object contains. -/
theorem event_timestamp_top_level (kvs : List (String × Json)) (p : ConvParts)
    (h : processLine (some (.obj kvs)) = .ok (some p)) :
    p.timestamp = (jLookup kvs "timestamp").getD (.str "unknown") ∧
    (∀ sid idx, jGet (eventJson sid idx p) "timestamp" = some p.timestamp) ∧
    (jLookup kvs "timestamp" = none → p.timestamp = .str "unknown") := by
  obtain ⟨kvs', inner, hline, hty, hmsg, hinner⟩ := processLine_ok _ _ h
  injection hline with h1
  injection h1 with h2
  subst h2
  obtain ⟨ikvs, text, hobj, hrole, hcontent, hext, hp⟩ := processInner_ok _ _ _ hinner
  subst hp
  refine ⟨rfl, fun sid idx => rfl, fun h0 => ?_⟩
  simp [h0]

/-- The top-level object of a log line whose inner message carries its own
timestamp while the top level has none. -/
def innerTsKvs : List (String × Json) :=
  [("type", .str "message"),
   ("message", .obj [("role", .str "user"), ("content", .str "hi"),
                     ("timestamp", .str "2024-01-01T00:00:00")])]

/-- C10 witness: the inner timestamp is ignored and "unknown" is written. -/
theorem event_timestamp_top_level_witness :
    processLine (some (.obj innerTsKvs)) = .ok (some ⟨.str "user", "hi", .str "unknown"⟩) ∧
    (⟨Json.str "user", "hi", Json.str "unknown"⟩ : ConvParts).timestamp
      = (jLookup innerTsKvs "timestamp").getD (.str "unknown") :=
  ⟨rfl, (event_timestamp_top_level innerTsKvs ⟨.str "user", "hi", .str "unknown"⟩ rfl).1⟩

/-- Every pair emitted by the enumeration loop comes from the line at the
offset its index records: the index counts every line, qualifying or not. -/
theorem processLines_mem (ls : List (Option Json)) :
    ∀ (i0 : Nat) (ip : Nat × ConvParts), ip ∈ (processLines ls i0).1 →
      ∃ k, ∃ hk : k < ls.length, ip.1 = i0 + k ∧
        processLine (ls.get ⟨k, hk⟩) = .ok (some ip.2) := by
  induction ls with
  | nil => intro i0 ip h; simp [processLines] at h
  | cons l ls ih =>
    intro i0 ip h
    simp only [processLines] at h
    cases hpl : processLine l with
    | error e => rw [hpl] at h; simp at h
    | ok o =>
      rw [hpl] at h
      cases o with
      | none =>
        have h' : ip ∈ (processLines ls (i0 + 1)).1 := h
        obtain ⟨k, hk, hidx, hproc⟩ := ih (i0 + 1) ip h'
        exact ⟨k + 1, Nat.succ_lt_succ hk, by omega, hproc⟩
      | some q =>
        have h' : ip ∈ (i0, q) :: (processLines ls (i0 + 1)).1 := h
        rcases List.mem_cons.mp h' with h1 | h2
        · refine ⟨0, Nat.succ_pos _, by simp [h1], ?_⟩
          rw [h1]
          exact hpl
        · obtain ⟨k, hk, hidx, hproc⟩ := ih (i0 + 1) ip h2
          exact ⟨k + 1, Nat.succ_lt_succ hk, by omega, hproc⟩

/-- C2: every event a session file yields carries as message_index the
zero-based position of its source line among ALL lines of the file
(malformed and non-message lines included), that index is below the line
count and appears in the destination file name, and the source line parses
to a JSON object with type "message" whose inner object has both role and
content keys. -/
theorem message_index_semantics (f : SessionFile) (w : FileWrite)
    (hw : w ∈ fileWrites f) :
    ∃ idx p, ∃ hidx : idx < f.lines.length,
      w = ⟨.events, eventName (stem f.name) idx, eventJson (stem f.name) idx p⟩ ∧
      jGet (eventJson (stem f.name) idx p) "message_index" = some (.num idx) ∧
      processLine (f.lines.get ⟨idx, hidx⟩) = .ok (some p) ∧
      ∃ kvs inner ikvs,
        f.lines.get ⟨idx, hidx⟩ = some (.obj kvs) ∧
        jLookup kvs "type" = some (.str "message") ∧
        jLookup kvs "message" = some inner ∧ inner = .obj ikvs ∧
        (jLookup ikvs "role").isSome = true ∧
        (jLookup ikvs "content").isSome = true := by
  obtain ⟨ip, hip, hweq⟩ := List.mem_map.mp hw
  obtain ⟨k, hk, hidx1, hproc⟩ := processLines_mem f.lines 0 ip hip
  have hkip : ip.1 = k := by omega
  obtain ⟨kvs, inner, hline, hty, hmsg, hinner⟩ := processLine_ok _ _ hproc
  obtain ⟨ikvs, text, hobj, hrole, hcontent, hext, hp⟩ := processInner_ok _ _ _ hinner
  refine ⟨k, ip.2, hk, ?_, rfl, hproc, kvs, inner, ikvs, hline, hty, hmsg, hobj,
    hrole, hcontent⟩
  rw [← hweq, ← hkip]

/-- A session file with a malformed first line and a well-formed second. -/
def sampleSession : SessionFile := ⟨"abc.jsonl", [none, some goodLine]⟩

/-- The single event `sampleSession` yields: its index is 1, the position of
its line among all lines, although it is the first (and only) emitted
message. -/
def sampleWrite : FileWrite :=
  ⟨.events, "openclaw_abc_1.json", eventJson "abc" 1 ⟨.str "user", "hi", .str "unknown"⟩⟩

/-- C2 witness: the malformed line 0 still advances the index, so the
emitted event carries index 1. -/
theorem message_index_semantics_witness :
    sampleWrite ∈ fileWrites sampleSession ∧
    (∃ idx p, ∃ hidx : idx < sampleSession.lines.length,
      sampleWrite = ⟨.events, eventName (stem sampleSession.name) idx,
                     eventJson (stem sampleSession.name) idx p⟩ ∧
      jGet (eventJson (stem sampleSession.name) idx p) "message_index" = some (.num idx) ∧
      processLine (sampleSession.lines.get ⟨idx, hidx⟩) = .ok (some p) ∧
      ∃ kvs inner ikvs,
        sampleSession.lines.get ⟨idx, hidx⟩ = some (.obj kvs) ∧
        jLookup kvs "type" = some (.str "message") ∧
        jLookup kvs "message" = some inner ∧ inner = .obj ikvs ∧
        (jLookup ikvs "role").isSome = true ∧
        (jLookup ikvs "content").isSome = true) :=
  have hwmem : sampleWrite ∈ fileWrites sampleSession := by
    have h1 : fileWrites sampleSession = [sampleWrite] := rfl
    rw [h1]
    exact List.mem_singleton_self _
  ⟨hwmem, message_index_semantics sampleSession sampleWrite hwmem⟩

/-! ## Content extraction (C4) -/

/-- Is the value a Python list (a parsed JSON array)? -/
def jIsList : Json → Bool
  | .arr _ => true
  | _ => false

/-- The spec's per-part rule, stated from the spec's words: a content part
contributes its "text" field when it is an object whose type is "text",
and nothing otherwise.  (Contributions that are not strings fall outside
the spec's rule and are dropped here; the equivalence theorem assumes they
are strings, which is when the code returns at all.) -/
def specPartText : Json → Option String
  | .obj kvs =>
      match jLookup kvs "type" with
      | some (.str t) =>
          if t = "text" then
            match (jLookup kvs "text").getD (.str "") with
            | .str s => some s
            | _ => none
          else none
      | _ => none
  | _ => none

/-- The spec's extraction rule for list content: the space-separated
concatenation of the "text" field of every content-part object whose type
is "text". -/
def specExtractText (parts : List Json) : String :=
  String.intercalate " " (parts.filterMap specPartText)

/-- Every text-typed part object carries a string "text" field (with the
code's default "" for an absent field).  Under this condition str.join
cannot raise. -/
def textFieldsAreStrings (parts : List Json) : Prop :=
  ∀ part ∈ parts, ∀ kvs, part = Json.obj kvs →
    jLookup kvs "type" = some (.str "text") →
    ∃ s, (jLookup kvs "text").getD (.str "") = .str s

/-- A part the code skips is a part the spec's rule skips. -/
theorem specPartText_of_none (part : Json) (h : textPartField part = none) :
    specPartText part = none := by
  cases part with
  | obj kvs =>
    simp only [textPartField] at h
    cases hty : jLookup kvs "type" with
    | none => simp [specPartText, hty]
    | some tv =>
      rw [hty] at h
      cases tv with
      | str t =>
        have h' : (if t = "text" then some ((jLookup kvs "text").getD (.str ""))
            else none) = none := h
        by_cases ht : t = "text"
        · rw [if_pos ht] at h'; simp at h'
        · simp [specPartText, hty, ht]
      | null => simp [specPartText, hty]
      | bool b => simp [specPartText, hty]
      | num q => simp [specPartText, hty]
      | arr xs => simp [specPartText, hty]
      | obj o => simp [specPartText, hty]
  | null => simp [specPartText]
  | bool b => simp [specPartText]
  | num q => simp [specPartText]
  | str s => simp [specPartText]
  | arr xs => simp [specPartText]

/-- A part the code keeps is an object of type "text" contributing the
default-completed "text" field. -/
theorem textPartField_some_inv (part : Json) (v : Json)
    (h : textPartField part = some v) :
    ∃ kvs, part = .obj kvs ∧ jLookup kvs "type" = some (.str "text") ∧
      v = (jLookup kvs "text").getD (.str "") := by
  cases part with
  | obj kvs =>
    simp only [textPartField] at h
    cases hty : jLookup kvs "type" with
    | none => rw [hty] at h; simp at h
    | some tv =>
      rw [hty] at h
      cases tv with
      | str t =>
        have h' : (if t = "text" then some ((jLookup kvs "text").getD (.str ""))
            else none) = some v := h
        by_cases ht : t = "text"
        · rw [if_pos ht] at h'
          simp only [Option.some.injEq] at h'
          exact ⟨kvs, rfl, by rw [hty, ht], h'.symm⟩
        · rw [if_neg ht] at h'; simp at h'
      | null => simp at h
      | bool b => simp at h
      | num q => simp at h
      | arr xs => simp at h
      | obj o => simp at h
  | null => simp [textPartField] at h
  | bool b => simp [textPartField] at h
  | num q => simp [textPartField] at h
  | str s => simp [textPartField] at h
  | arr xs => simp [textPartField] at h

/-- The spec's rule on an object part of type "text" with a string field. -/
theorem specPartText_obj (kvs : List (String × Json)) (s : String)
    (hty : jLookup kvs "type" = some (.str "text"))
    (hstr : (jLookup kvs "text").getD (.str "") = .str s) :
    specPartText (.obj kvs) = some s := by
  simp only [specPartText]
  rw [hty]
  simp [hstr]

/-- When every text-typed part has a string "text" field, the collected
fields are exactly the spec's contributions. -/
theorem allStrings_spec (parts : List Json) (hs : textFieldsAreStrings parts) :
    allStrings (parts.filterMap textPartField) = some (parts.filterMap specPartText) := by
  induction parts with
  | nil => rfl
  | cons part rest ih =>
    have hrest : textFieldsAreStrings rest :=
      fun q hq => hs q (List.mem_cons_of_mem _ hq)
    cases hf : textPartField part with
    | none =>
      rw [List.filterMap_cons_none hf,
          List.filterMap_cons_none (specPartText_of_none part hf)]
      exact ih hrest
    | some v =>
      obtain ⟨kvs, hpart, hty, hv⟩ := textPartField_some_inv part v hf
      obtain ⟨s, hstr⟩ := hs part (List.mem_cons_self _ _) kvs hpart hty
      have hvs : v = .str s := by rw [hv, hstr]
      have hspec : specPartText part = some s := by
        rw [hpart]
        exact specPartText_obj kvs s hty hstr
      rw [List.filterMap_cons_some hf, List.filterMap_cons_some hspec, hvs]
      simp only [allStrings]
      rw [ih hrest]
      rfl

/-- The spec's concrete example content list:
[obj type=text text=a, obj type=other, obj type=text text=b]. -/
def examplePartsList : List Json :=
  [.obj [("type", .str "text"), ("text", .str "a")],
   .obj [("type", .str "other")],
   .obj [("type", .str "text"), ("text", .str "b")]]

/-- C4: for list content the extracted text is the space-separated
concatenation of the "text" field of every content-part object whose type
is "text" (other parts contribute nothing), matching the spec-side rule
`specExtractText`; the spec's example yields exactly "a b"; for non-list
content the extracted text is the content value stringified with str(). -/
theorem content_extraction_rule (parts : List Json) (c : Json)
    (hs : textFieldsAreStrings parts) (hc : jIsList c = false) :
    extractContentText (.arr parts) = .ok (specExtractText parts) ∧
    extractContentText (.arr examplePartsList) = .ok "a b" ∧
    specExtractText examplePartsList = "a b" ∧
    extractContentText c = .ok (pyStr c) := by
  refine ⟨?_, rfl, rfl, ?_⟩
  · simp only [extractContentText]
    rw [allStrings_spec parts hs]
    rfl
  · cases c with
    | arr xs => simp [jIsList] at hc
    | null => rfl
    | bool b => rfl
    | num q => rfl
    | str s => rfl
    | obj kvs => rfl

/-- The example parts all carry string "text" fields. -/
theorem exampleParts_textFields : textFieldsAreStrings examplePartsList := by
  intro part hp kvs hpart hty
  simp only [examplePartsList, List.mem_cons, List.not_mem_nil, or_false] at hp
  rcases hp with rfl | rfl | rfl
  · cases hpart
    exact ⟨"a", rfl⟩
  · cases hpart
    simp [jLookup] at hty
  · cases hpart
    exact ⟨"b", rfl⟩

/-- C4 witness at the example list and a scalar content value. -/
theorem content_extraction_rule_witness :
    textFieldsAreStrings examplePartsList ∧
    jIsList (Json.str "x") = false ∧
    extractContentText (.arr examplePartsList) = .ok (specExtractText examplePartsList) ∧
    extractContentText (Json.str "x") = .ok (pyStr (Json.str "x")) :=
  ⟨exampleParts_textFields, rfl,
   (content_extraction_rule examplePartsList (Json.str "x") exampleParts_textFields rfl).1,
   (content_extraction_rule examplePartsList (Json.str "x") exampleParts_textFields rfl).2.2.2⟩

/-! ## Re-run determinism (C5) and fatal config errors (C8) -/

/-- Cancelling the fixed "Z" suffix of the migration timestamp. -/
theorem string_append_z_inj (a b : String) (h : a ++ "Z" = b ++ "Z") : a = b := by
  have hd : (a ++ "Z").data = (b ++ "Z").data := congrArg String.data h
  rw [String.data_append, String.data_append] at hd
  exact String.ext (List.append_cancel_right hd)

/-- C5: the chunk and conversation outputs are functions of the source data
alone — two runs over unchanged sources at different wall-clock times write
identical documents (hence identical bytes under the deterministic
serializer) — while the personality document differs between the runs only
in its migrated_at field, which does change whenever the timestamp does. -/
theorem rerun_deterministic (db : Option (List ChunkRow)) (ss : Option (List SessionFile))
    (cfg : ConfigSource) (now1 now2 : String) :
    (mainRun db ss cfg now1).chunks = (mainRun db ss cfg now2).chunks ∧
    (mainRun db ss cfg now1).conv = (mainRun db ss cfg now2).conv ∧
    (∀ c k, k ≠ "migrated_at" →
        jGet (personalityJson c now1) k = jGet (personalityJson c now2) k) ∧
    (∀ c, jGet (personalityJson c now1) "migrated_at" = some (.str (now1 ++ "Z"))) ∧
    (now1 ≠ now2 → ∀ c,
        jGet (personalityJson c now1) "migrated_at" ≠
          jGet (personalityJson c now2) "migrated_at") := by
  refine ⟨?_, ?_, ?_, fun c => rfl, ?_⟩
  · rw [mainRun_chunks, mainRun_chunks]
  · rw [mainRun_conv, mainRun_conv]
  · intro c k hk
    simp only [personalityJson, jGet, jLookup]
    by_cases h1 : "source" = k
    · rw [if_pos h1, if_pos h1]
    · rw [if_neg h1, if_neg h1]
      have h2 : "migrated_at" ≠ k := fun he => hk he.symm
      rw [if_neg h2, if_neg h2]
  · intro hne c h
    have h4 : (some (Json.str (now1 ++ "Z")) : Option Json)
        = some (Json.str (now2 ++ "Z")) := h
    simp only [Option.some.injEq, Json.str.injEq] at h4
    exact hne (string_append_z_inj _ _ h4)

/-- C5 witness: concrete distinct timestamps, equal config field, distinct
migrated_at field. -/
theorem rerun_deterministic_witness :
    (("t1" : String) ≠ "t2") ∧
    (("config" : String) ≠ "migrated_at") ∧
    jGet (personalityJson Json.null "t1") "config"
      = jGet (personalityJson Json.null "t2") "config" ∧
    jGet (personalityJson Json.null "t1") "migrated_at"
      ≠ jGet (personalityJson Json.null "t2") "migrated_at" :=
  ⟨by decide, by decide,
   (rerun_deterministic none none .absent "t1" "t2").2.2.1 Json.null "config" (by decide),
   (rerun_deterministic none none .absent "t1" "t2").2.2.2.2 (by decide) Json.null⟩

/-- Every chunk-pass write lands in the vector directory. -/
theorem chunk_writes_dir (db : Option (List ChunkRow)) :
    ∀ w ∈ (migrate_code_chunks db).writes, w.dir = .vector := by
  cases db with
  | none => intro w hw; simp [migrate_code_chunks] at hw
  | some rows =>
    intro w hw
    simp only [migrate_code_chunks] at hw
    obtain ⟨r, _, rfl⟩ := List.mem_map.mp hw
    rfl

/-- Every write of the session loop lands in the events directory. -/
theorem convGo_writes_dir (fs : List SessionFile) :
    ∀ w ∈ (convGo fs).2.1, w.dir = .events := by
  induction fs with
  | nil => intro w hw; simp [convGo] at hw
  | cons f fs ih =>
    intro w hw
    simp only [convGo] at hw
    cases hr : (processLines f.lines 0).2 with
    | some e =>
      rw [hr] at hw
      have hw' : w ∈ fileWrites f := hw
      obtain ⟨ip, _, rfl⟩ := List.mem_map.mp hw'
      rfl
    | none =>
      rw [hr] at hw
      have hw' : w ∈ fileWrites f ++ (convGo fs).2.1 := hw
      rcases List.mem_append.mp hw' with h | h
      · obtain ⟨ip, _, rfl⟩ := List.mem_map.mp h
        rfl
      · exact ih w h

/-- Every conversation-pass write lands in the events directory. -/
theorem conv_writes_dir (ss : Option (List SessionFile)) :
    ∀ w ∈ (migrate_conversations ss).writes, w.dir = .events := by
  cases ss with
  | none => intro w hw; simp [migrate_conversations] at hw
  | some files =>
    intro w hw
    have hw' : w ∈ (convGo (activeSessions files)).2.1 := hw
    exact convGo_writes_dir _ w hw'

/-- C8: a present but malformed configuration file is fatal: the run exits
non-zero, the personality file is never among the written files, and (when
the earlier passes did not already abort) the personality pass propagates
exactly the JSON decode error with no write. -/
theorem malformed_config_fatal (db : Option (List ChunkRow))
    (ss : Option (List SessionFile)) (now : String) :
    (mainRun db ss .malformed now).exitOk = false ∧
    (DestDir.memoryRoot, "openclaw_personality.json") ∉ (mainRun db ss .malformed now).files ∧
    ((migrate_conversations ss).err = none →
      (mainRun db ss .malformed now).personality =
        some ⟨none, false, some .jsonDecodeError⟩) := by
  refine ⟨?_, ?_, ?_⟩
  · cases he : (migrate_conversations ss).err with
    | some e => simp [mainRun, RunOutcome.exitOk, he]
    | none => simp [mainRun, RunOutcome.exitOk, he, extract_personality]
  · intro hmem
    cases he : (migrate_conversations ss).err with
    | some e =>
      simp only [mainRun, he, RunOutcome.files] at hmem
      rcases List.mem_append.mp hmem with h12 | h3
      · rcases List.mem_append.mp h12 with h1 | h2
        · obtain ⟨w, hw, heq⟩ := List.mem_map.mp h1
          rw [chunk_writes_dir db w hw] at heq
          simp at heq
        · obtain ⟨w, hw, heq⟩ := List.mem_map.mp h2
          rw [conv_writes_dir ss w hw] at heq
          simp at heq
      · simp at h3
    | none =>
      simp only [mainRun, he, RunOutcome.files, extract_personality] at hmem
      rcases List.mem_append.mp hmem with h12 | h3
      · rcases List.mem_append.mp h12 with h1 | h2
        · obtain ⟨w, hw, heq⟩ := List.mem_map.mp h1
          rw [chunk_writes_dir db w hw] at heq
          simp at heq
        · obtain ⟨w, hw, heq⟩ := List.mem_map.mp h2
          rw [conv_writes_dir ss w hw] at heq
          simp at heq
      · simp at h3
  · intro h0
    simp [mainRun, h0, extract_personality]

/-- C8 witness: with no database and no sessions (so nothing aborts
earlier), the malformed config alone makes the run fail. -/
theorem malformed_config_fatal_witness :
    (migrate_conversations none).err = none ∧
    (mainRun none none .malformed "t0").personality =
      some ⟨none, false, some .jsonDecodeError⟩ :=
  ⟨rfl, (malformed_config_fatal none none "t0").2.2 rfl⟩
